import Mathlib

/-!
Shallow embedding of the occlusion-mask pipeline of AR-Visualizer
(`src/contexts/VisualizerContext.tsx`) and proofs about it.

Modelling conventions:
* JS `Uint8ClampedArray` buffers are `List Nat` (bytes, values in [0,255]).
* JS `number` arithmetic on pixel intensities is modelled over `ℝ` where the
  source computes with floats (Sobel magnitudes, Gaussian kernels, gamma), and
  over `ℚ`/`ℤ`/`ℕ` where the source only combines integers (mask fusion).
* Out-of-range reads (`data[i]` = `undefined` in JS) are modelled as `getD _ 0`;
  all claims are settled on inputs where every access is in bounds.
* `Math.round x` for `x ≥ 0` is `⌊x + 1/2⌋` (JS rounds half-up for nonnegative
  arguments, the only case arising here).
* Loops are modelled by structural recursion with explicit fuel where the
  source loop bound is data dependent; the fuel is provably sufficient
  (see `floodFinal_exit` below), so the model coincides with the source loop.
-/

/-- JS helper `clamp(value, min, max) = Math.min(max, Math.max(min, value))`,
used with integer coordinate arguments. -/
def clampI (value lo hi : Int) : Int := min hi (max lo value)

/-- JS helper `clamp` used with real arguments (the threshold clamp). -/
noncomputable def clampR (value lo hi : ℝ) : ℝ := min hi (max lo value)

/-- Storing an integer into a `Uint8ClampedArray` slot clamps it to [0,255]. -/
def byteOf (z : Int) : Nat := (min 255 (max 0 z)).toNat

/-- JS `Math.round` on a nonnegative rational: round half up. -/
def jsRoundQ (q : ℚ) : ℤ := ⌊q + 1/2⌋

/-- JS `Math.round` on a nonnegative real: round half up. -/
noncomputable def jsRoundR (x : ℝ) : ℤ := ⌊x + 1/2⌋

/-- Value of a pixel buffer at a flat index (JS `buf[i]`, in-bounds reads). -/
def px (buf : List Nat) (i : Nat) : Nat := buf.getD i 0

/-- Indices visited by a JS loop `for (v = start; v < stop; v += step)`.
The first argument is structural fuel; `stop` iterations always suffice
because every caller passes `step ≥ 1`. -/
def strideIdxs : Nat → Nat → Nat → Nat → List Nat
  | 0, _, _, _ => []
  | fuel + 1, start, stop, step =>
      if start < stop then start :: strideIdxs fuel (start + step) stop step else []

/-! ### Morphological dilation (`dilate`)

The source scans the `(2r+1)×(2r+1)` neighbourhood in row-major order with an
early `break` once the running maximum hits 255; `scan255` reproduces exactly
that control flow (once the accumulator is 255 every further sample is
ignored, which is also what the double `break` does). -/

/-- Row-major list of clamped neighbourhood samples around grid point
`(x, y)` for radius `r` (the values read by the two nested kernel loops). -/
def dilateSamples (source : List Nat) (width height : Nat) (r : Int)
    (x y : Nat) : List Nat :=
  ((List.range (2 * r.toNat + 1)).map (fun a : Nat => -r + (a : Int))).flatMap fun ky =>
    ((List.range (2 * r.toNat + 1)).map (fun a : Nat => -r + (a : Int))).map fun kx =>
      px source ((clampI ((y : Int) + ky) 0 ((height : Int) - 1)).toNat * width +
        (clampI ((x : Int) + kx) 0 ((width : Int) - 1)).toNat)

/-- The source's running-maximum loop with the early exit at 255. -/
def scan255 (l : List Nat) : Nat :=
  l.foldl (fun m v => if m = 255 then m else max m v) 0

/-- `dilate(source, width, height, radius)`: each written slot `y*width+x`
(for `y < height`, `x < width`, i.e. exactly the flat indices below
`width*height`) receives the neighbourhood maximum; the backing array has
`source.length` slots and the remaining slots keep their initial 0.
`radius <= 0` returns a copy of the source. -/
def dilate (source : List Nat) (width height : Nat) (radius : Int) : List Nat :=
  if radius ≤ 0 then source
  else
    (List.range source.length).map fun i =>
      if i < width * height then
        scan255 (dilateSamples source width height radius (i % width) (i / width))
      else 0

/-! ### Flood fill (`fillClosedRegions`) -/

/-- State of the `fillClosedRegions` BFS: the `visited` flags, the worklist
(the source preallocates `queue` as a `Uint32Array(total)` and appends via
`tail`; here `queue` is the list of all enqueued indices so `tail` is
`queue.length`), and the read cursor `head`. -/
structure FloodState where
  visited : List Bool
  queue : List Nat
  head : Nat
deriving Repr

/-- The source's local `enqueue(x, y)`: bounds check, skip visited or nonzero
pixels, otherwise mark visited and append to the worklist. -/
def floodEnqueue (source : List Nat) (width height : Nat) (s : FloodState)
    (x y : Int) : FloodState :=
  if x < 0 ∨ (width : Int) ≤ x ∨ y < 0 ∨ (height : Int) ≤ y then s
  else
    let idx := (y * width + x).toNat
    if s.visited.getD idx false = true ∨ px source idx ≠ 0 then s
    else ⟨s.visited.set idx true, s.queue ++ [idx], s.head⟩

/-- Initial seeding: enqueue every pixel of the four borders (top/bottom rows
in the `x` loop, then left/right columns in the `y` loop). -/
def floodInit (source : List Nat) (width height : Nat) : FloodState :=
  let s0 : FloodState := ⟨List.replicate (width * height) false, [], 0⟩
  let s1 := (List.range width).foldl
    (fun s (x : Nat) => floodEnqueue source width height
      (floodEnqueue source width height s (x : Int) 0) (x : Int) ((height : Int) - 1)) s0
  (List.range height).foldl
    (fun s (y : Nat) => floodEnqueue source width height
      (floodEnqueue source width height s 0 (y : Int)) ((width : Int) - 1) (y : Int)) s1

/-- One iteration of the BFS `while (head < tail)` loop body: pop the index at
`head` and try to enqueue its four 4-connected neighbours. -/
def floodStep (source : List Nat) (width height : Nat) (s : FloodState) : FloodState :=
  let idx := s.queue.getD s.head 0
  let x : Int := (idx % width : Nat)
  let y : Int := (idx / width : Nat)
  let s1 : FloodState := ⟨s.visited, s.queue, s.head + 1⟩
  floodEnqueue source width height
    (floodEnqueue source width height
      (floodEnqueue source width height
        (floodEnqueue source width height s1 (x - 1) y) (x + 1) y) x (y - 1)) x (y + 1)

/-- The BFS loop with explicit fuel; `width*height` units of fuel always
reach the loop's exit condition (proved in `floodLoop_head`). -/
def floodLoop (source : List Nat) (width height : Nat) : Nat → FloodState → FloodState
  | 0, s => s
  | fuel + 1, s =>
      if s.head < s.queue.length then
        floodLoop source width height fuel (floodStep source width height s)
      else s

/-- The state of the BFS after the `while` loop has finished. -/
def floodFinal (source : List Nat) (width height : Nat) : FloodState :=
  floodLoop source width height (width * height) (floodInit source width height)

/-- `fillClosedRegions(source, width, height)`: pixels reached by the border
flood become 0, unreached pixels become 255. -/
def fillClosedRegions (source : List Nat) (width height : Nat) : List Nat :=
  let fin := floodFinal source width height
  (List.range (width * height)).map fun i => if fin.visited.getD i false then 0 else 255

/-! ### Wall-colour estimation (`estimateWallColor`) -/

/-- An RGB border sample (JS `[data[i], data[i+1], data[i+2]]`). -/
def sampleAt (data : List Nat) (width x y : Nat) : Nat × Nat × Nat :=
  (px data ((y * width + x) * 4), px data ((y * width + x) * 4 + 1),
    px data ((y * width + x) * 4 + 2))

/-- Brightness of a sample: the R+G+B sum used by the sort comparator. -/
def sampleSum (s : Nat × Nat × Nat) : Nat := s.1 + s.2.1 + s.2.2

/-- The border band depth `max(1, floor(min(width, height) * 0.08))`.
For every size reachable here, `floor(n * 0.08)` (double arithmetic) equals
`n * 8 / 100` in exact arithmetic. -/
def borderDepth (width height : Nat) : Nat := max 1 (min width height * 8 / 100)

/-- All border samples collected by the two sampling loops of
`estimateWallColor`, in push order. -/
def borderSamples (data : List Nat) (width height : Nat) : List (Nat × Nat × Nat) :=
  let border := borderDepth width height
  let ys := strideIdxs (height - border) border (height - border)
    (max 1 ((height - 2 * border) / 16))
  let xs := strideIdxs (width - border) border (width - border)
    (max 1 ((width - 2 * border) / 16))
  (ys.flatMap fun y =>
    [sampleAt data width border y, sampleAt data width (width - 1 - border) y]) ++
  (xs.flatMap fun x =>
    [sampleAt data width x border, sampleAt data width x (height - 1 - border)])

/-- The ascending-by-sum comparator passed to `samples.sort`. -/
def sumLE (a b : Nat × Nat × Nat) : Prop := sampleSum a ≤ sampleSum b

instance : DecidableRel sumLE := fun _ _ => Nat.decLe _ _

/-- `estimateWallColor(data, width, height)`: the border sample at index
`length >> 1` once the samples are sorted ascending by R+G+B sum (a stable
sort, like `Array.prototype.sort`), or neutral gray when nothing was
collected. -/
def estimateWallColor (data : List Nat) (width height : Nat) : Nat × Nat × Nat :=
  let samples := borderSamples data width height
  if samples = [] then (128, 128, 128)
  else (samples.insertionSort sumLE).getD (samples.length / 2) (128, 128, 128)

/-! ### Mask fusion (`combined` loop of `buildOcclusionMask`) -/

/-- The fusion loop: `combined[i] = max(edgeBlurred[i],
Math.round(colorBlurred[i] * objectRegionSoft[i] / 255))`. -/
def combineMasks (edgeBlurred colorBlurred objectRegionSoft : List Nat)
    (pixelCount : Nat) : List Nat :=
  (List.range pixelCount).map fun i =>
    max (px edgeBlurred i)
      (jsRoundQ (((px colorBlurred i : ℚ) * (px objectRegionSoft i : ℚ)) / 255)).toNat

/-! ### Colour-distance mask (`buildColorDistanceMask`)

The source compares `Math.sqrt(dr*dr + dg*dg + db*db) >= 58`; since `sqrt` is
correctly rounded and monotone and both 58 and 58² = 3364 are exactly
representable, this is modelled with the mathematical square root. -/

/-- Squared RGB distance of pixel `i` to the wall colour `(wr, wg, wb)`. -/
def colorDistSq (data : List Nat) (wall : Nat × Nat × Nat) (i : Nat) : Int :=
  let dr : Int := (px data (i * 4) : Int) - (wall.1 : Int)
  let dg : Int := (px data (i * 4 + 1) : Int) - (wall.2.1 : Int)
  let db : Int := (px data (i * 4 + 2) : Int) - (wall.2.2 : Int)
  dr * dr + dg * dg + db * db

/-- `COLOR_DISTANCE_THRESHOLD` of the source. -/
def COLOR_DISTANCE_THRESHOLD : Nat := 58

/-- `buildColorDistanceMask(data, width, height, pixelCount)`. -/
noncomputable def buildColorDistanceMask (data : List Nat) (width height pixelCount : Nat) :
    List Nat :=
  let wall := estimateWallColor data width height
  (List.range pixelCount).map fun i =>
    if (COLOR_DISTANCE_THRESHOLD : ℝ) ≤ Real.sqrt ((colorDistSq data wall i : Int) : ℝ)
    then 255 else 0

/-! ### Separable Gaussian blur (`gaussianBlur`, `buildGaussianKernel`) -/

/-- Unnormalised Gaussian weight `exp(-(i*i)/(2*sigma*sigma))` at kernel slot
`k` (so `i = k - radius` ranges over `-radius..radius`). -/
noncomputable def gaussianRaw (radius : Nat) (sigma : ℝ) (k : Nat) : ℝ :=
  Real.exp (-(((k : ℝ) - (radius : ℝ)) ^ 2) / (2 * sigma ^ 2))

/-- The normalised kernel entry at slot `k` of `buildGaussianKernel`. -/
noncomputable def gaussianKernel (radius : Nat) (sigma : ℝ) (k : Nat) : ℝ :=
  gaussianRaw radius sigma k / ∑ j ∈ Finset.range (2 * radius + 1), gaussianRaw radius sigma j

/-- Horizontal pass value at grid index `i` (the `temp` Float32Array; the
horizontal pass never consults the height). -/
noncomputable def blurPassX (source : List Nat) (width : Nat) (radius : Nat)
    (sigma : ℝ) (i : Nat) : ℝ :=
  ∑ k ∈ Finset.range (2 * radius + 1),
    (px source ((i / width) * width +
      (clampI ((i % width : Nat) + (k : Int) - (radius : Int)) 0 ((width : Int) - 1)).toNat) : ℝ) *
      gaussianKernel radius sigma k

/-- `gaussianBlur(source, width, height, radius, sigma)`: horizontal then
vertical pass, each written slot rounded and stored as a byte; as in `dilate`,
slots at or beyond `width*height` keep their initial 0.  Radius 0 returns a
copy. -/
noncomputable def gaussianBlur (source : List Nat) (width height : Nat) (radius : Nat)
    (sigma : ℝ) : List Nat :=
  if radius = 0 then source
  else
    (List.range source.length).map fun i =>
      if i < width * height then
        byteOf (jsRoundR (∑ k ∈ Finset.range (2 * radius + 1),
          blurPassX source width radius sigma
            ((clampI ((i / width : Nat) + (k : Int) - (radius : Int)) 0
              ((height : Int) - 1)).toNat * width + i % width) *
          gaussianKernel radius sigma k))
      else 0

/-! ### Edge pipeline: grayscale, Sobel, adaptive threshold -/

/-- BT.709 luma of pixel `i` (`0.2126*r + 0.7152*g + 0.0722*b`). -/
noncomputable def grayscaleAt (data : List Nat) (i : Nat) : ℝ :=
  0.2126 * (px data (i * 4) : ℝ) + 0.7152 * (px data (i * 4 + 1) : ℝ) +
    0.0722 * (px data (i * 4 + 2) : ℝ)

/-- `SOBEL_X_KERNEL` of the source. -/
def SOBEL_X_KERNEL : List ℝ := [-1, 0, 1, -2, 0, 2, -1, 0, 1]

/-- `SOBEL_Y_KERNEL` of the source. -/
def SOBEL_Y_KERNEL : List ℝ := [-1, -2, -1, 0, 0, 0, 1, 2, 1]

/-- The inner 3×3 convolution accumulator at interior pixel `(x, y)`:
kernel slot `k` corresponds to `ky = k/3 - 1`, `kx = k%3 - 1`. -/
noncomputable def sobelConv (kernel : List ℝ) (data : List Nat) (width : Nat)
    (x y : Nat) : ℝ :=
  ∑ k ∈ Finset.range 9,
    grayscaleAt data ((y + k / 3 - 1) * width + (x + k % 3 - 1)) * kernel.getD k 0

/-- Sobel magnitude at flat index `i`: `Math.hypot(gx, gy)` on interior
pixels, 0 on the (never written) border of the presized array. -/
noncomputable def sobelMagnitudeAt (data : List Nat) (width height : Nat) (i : Nat) : ℝ :=
  let x := i % width
  let y := i / width
  if 1 ≤ x ∧ x < width - 1 ∧ 1 ≤ y ∧ y < height - 1 then
    Real.sqrt (sobelConv SOBEL_X_KERNEL data width x y ^ 2 +
      sobelConv SOBEL_Y_KERNEL data width x y ^ 2)
  else 0

/-- The running maximum `maxMagnitude` (it starts at 0 and border slots hold
0, so it equals the maximum of all slots). -/
noncomputable def maxMagnitude (data : List Nat) (width height : Nat) : ℝ :=
  ((List.range (width * height)).map (sobelMagnitudeAt data width height)).foldl max 0

/-- `normalizedEdges[i] = sobelMagnitude[i] * inverseMax * 255` with
`inverseMax = maxMagnitude > 0 ? 1/maxMagnitude : 0`. -/
noncomputable def normalizedEdgeAt (data : List Nat) (width height : Nat) (i : Nat) : ℝ :=
  sobelMagnitudeAt data width height i *
    (if 0 < maxMagnitude data width height then 1 / maxMagnitude data width height else 0) * 255

/-- The mean of the normalized edge values. -/
noncomputable def edgeMean (data : List Nat) (width height : Nat) : ℝ :=
  (∑ i ∈ Finset.range (width * height), normalizedEdgeAt data width height i) /
    (width * height : ℕ)

/-- `stdDev = Math.sqrt(variance / pixelCount)` where `variance` accumulates
the squared deviations from the mean. -/
noncomputable def edgeStdDev (data : List Nat) (width height : Nat) : ℝ :=
  Real.sqrt ((∑ i ∈ Finset.range (width * height),
    (normalizedEdgeAt data width height i - edgeMean data width height) ^ 2) /
    (width * height : ℕ))

/-- `threshold = clamp(mean + stdDev, 35, 180)`. -/
noncomputable def edgeThreshold (data : List Nat) (width height : Nat) : ℝ :=
  clampR (edgeMean data width height + edgeStdDev data width height) 35 180

/-- `binaryEdges[i] = normalizedEdges[i] >= threshold ? 255 : 0`. -/
noncomputable def binaryEdges (data : List Nat) (width height : Nat) : List Nat :=
  (List.range (width * height)).map fun i =>
    if edgeThreshold data width height ≤ normalizedEdgeAt data width height i then 255 else 0

/-! ### Final tone mapping and the full pipeline -/

/-- `MASK_GAMMA` of the source. -/
noncomputable def MASK_GAMMA : ℝ := 0.7

/-- Per-pixel output byte: gamma boost then `max(0, min(255, round(v*255)))`.
`Math.pow` on a nonnegative base is real exponentiation `rpow`. -/
noncomputable def toneMapValue (combined : List Nat) (i : Nat) : Nat :=
  (max 0 (min 255 (jsRoundR (((px combined i : ℝ) / 255) ^ MASK_GAMMA * 255)))).toNat

/-- An `ImageData`: dimensions plus the flat RGBA byte buffer. -/
structure ImageData where
  width : Nat
  height : Nat
  data : List Nat
deriving Repr

/-- `maskSource` of `buildOcclusionMask`: `sealedEdges` (the binary edges
dilated by `REGION_FILL_DILATION_RADIUS = 3`) joined with the filled interior
regions by a pixel-wise maximum. -/
noncomputable def maskSourceOf (data : List Nat) (width height : Nat) : List Nat :=
  (List.range (width * height)).map fun i =>
    max (px (dilate (binaryEdges data width height) width height 3) i)
      (px (fillClosedRegions (dilate (binaryEdges data width height) width height 3)
        width height) i)

/-- `edgeBlurred`: the mask source dilated by `EDGE_DILATION_RADIUS = 2` then
blurred with `BLUR_RADIUS = 3`, `GAUSSIAN_SIGMA = 2`. -/
noncomputable def edgeBlurredOf (data : List Nat) (width height : Nat) : List Nat :=
  gaussianBlur (dilate (maskSourceOf data width height) width height 2) width height 3 2

/-- `colorBlurred`: the colour-distance mask dilated by 2 and blurred with
radius 2, sigma 1.2. -/
noncomputable def colorBlurredOf (data : List Nat) (width height : Nat) : List Nat :=
  gaussianBlur (dilate (buildColorDistanceMask data width height (width * height))
    width height 2) width height 2 1.2

/-- `objectRegionSoft`: the mask source dilated by 10 and blurred with radius
8, sigma 4 (the spatial gate for the colour mask). -/
noncomputable def objectRegionSoftOf (data : List Nat) (width height : Nat) : List Nat :=
  gaussianBlur (dilate (maskSourceOf data width height) width height 10) width height 8 4

/-- `combined`: the fusion of the edge mask with the gated colour mask. -/
noncomputable def combinedOf (data : List Nat) (width height : Nat) : List Nat :=
  combineMasks (edgeBlurredOf data width height) (colorBlurredOf data width height)
    (objectRegionSoftOf data width height) (width * height)

/-- `buildOcclusionMask(imageData)`, the single entry point: degenerate
dimensions short-circuit to `new ImageData(width || 1, height || 1)` (an
all-zero buffer); otherwise the colour pipeline, the edge pipeline, fusion
and tone mapping run as in the source, and the output value is replicated
over R, G, B and alpha (output slot `j` belongs to pixel `j / 4`). -/
noncomputable def buildOcclusionMask (img : ImageData) : ImageData :=
  if img.width = 0 ∨ img.height = 0 then
    { width := if img.width = 0 then 1 else img.width
      height := if img.height = 0 then 1 else img.height
      data := List.replicate
        (4 * ((if img.width = 0 then 1 else img.width) *
          (if img.height = 0 then 1 else img.height))) 0 }
  else
    { width := img.width
      height := img.height
      data := (List.range (4 * (img.width * img.height))).map fun j =>
        toneMapValue (combinedOf img.data img.width img.height) (j / 4) }

/-! ## General helper lemmas -/

theorem getD_map_range {α : Type} (f : Nat → α) (n i : Nat) (d : α) :
    ((List.range n).map f).getD i d = if i < n then f i else d := by
  by_cases h : i < n
  · rw [if_pos h, List.getD_eq_getElem _ _ (by simpa using h), List.getElem_map,
      List.getElem_range]
  · rw [if_neg h, List.getD_eq_default _ _ (by simpa using Nat.le_of_not_lt h)]

theorem px_le_255 {buf : List Nat} (hb : ∀ v ∈ buf, v ≤ 255) (i : Nat) :
    px buf i ≤ 255 := by
  unfold px
  by_cases h : i < buf.length
  · exact hb _ (List.getD_eq_getElem buf 0 h ▸ buf.getElem_mem h)
  · rw [List.getD_eq_default buf 0 (Nat.le_of_not_lt h)]
    exact Nat.zero_le _

/-! ## Dilation lemmas (claim C7) -/

theorem scan255_step (m a : Nat) (hm : m ≤ 255) (ha : a ≤ 255) :
    (if m = 255 then m else max m a) = max m a := by
  by_cases h : m = 255
  · subst h
    simp [Nat.max_eq_left ha]
  · simp [h]

theorem scan255_eq_foldl_max {l : List Nat} (hl : ∀ v ∈ l, v ≤ 255) :
    scan255 l = l.foldl max 0 := by
  unfold scan255
  have aux : ∀ (l' : List Nat) (m : Nat), m ≤ 255 → (∀ v ∈ l', v ≤ 255) →
      l'.foldl (fun m v => if m = 255 then m else max m v) m = l'.foldl max m := by
    intro l'
    induction l' with
    | nil => intro m _ _; rfl
    | cons a t ih =>
      intro m hm hl'
      have ha : a ≤ 255 := hl' a (List.mem_cons_self a t)
      simp only [List.foldl_cons, scan255_step m a hm ha]
      exact ih (max m a) (Nat.max_le.mpr ⟨hm, ha⟩) (fun v hv => hl' v (List.mem_cons_of_mem _ hv))
  exact aux l 0 (by norm_num) hl

theorem foldl_max_init_le (l : List Nat) (m : Nat) : m ≤ l.foldl max m := by
  induction l generalizing m with
  | nil => exact Nat.le_refl m
  | cons a t ih => exact Nat.le_trans (Nat.le_max_left m a) (ih (max m a))

theorem le_foldl_max_of_mem {l : List Nat} {a : Nat} (h : a ∈ l) (m : Nat) :
    a ≤ l.foldl max m := by
  induction l generalizing m with
  | nil => cases h
  | cons b t ih =>
    rcases List.mem_cons.mp h with rfl | ht
    · exact Nat.le_trans (Nat.le_max_right m a) (foldl_max_init_le t (max m a))
    · exact ih ht (max m b)

theorem foldl_max_le {l : List Nat} {m b : Nat} (hm : m ≤ b) (hl : ∀ a ∈ l, a ≤ b) :
    l.foldl max m ≤ b := by
  induction l generalizing m with
  | nil => exact hm
  | cons a t ih =>
    exact ih (Nat.max_le.mpr ⟨hm, hl a (List.mem_cons_self a t)⟩)
      (fun v hv => hl v (List.mem_cons_of_mem _ hv))

theorem foldl_max_subset_le {l₁ l₂ : List Nat} (h : ∀ a ∈ l₁, a ∈ l₂) :
    l₁.foldl max 0 ≤ l₂.foldl max 0 :=
  foldl_max_le (Nat.zero_le _) (fun a ha => le_foldl_max_of_mem (h a ha) 0)

theorem mem_offsets_iff {r : Int} (hr : 0 ≤ r) (b : Int) :
    b ∈ (List.range (2 * r.toNat + 1)).map (fun a : Nat => -r + (a : Int)) ↔
      -r ≤ b ∧ b ≤ r := by
  constructor
  · intro hb
    obtain ⟨a, ha, rfl⟩ := List.mem_map.mp hb
    rw [List.mem_range] at ha
    omega
  · intro h
    exact List.mem_map.mpr ⟨(b + r).toNat, List.mem_range.mpr (by omega), by omega⟩

theorem dilateSamples_le_255 {source : List Nat} (hb : ∀ v ∈ source, v ≤ 255)
    (width height : Nat) (r : Int) (x y : Nat) :
    ∀ v ∈ dilateSamples source width height r x y, v ≤ 255 := by
  intro v hv
  unfold dilateSamples at hv
  rcases List.mem_flatMap.mp hv with ⟨ky, _, hky⟩
  rcases List.mem_map.mp hky with ⟨kx, _, rfl⟩
  exact px_le_255 hb _

theorem dilateSamples_mono {source : List Nat} {width height : Nat} {r1 r2 : Int}
    (h1 : 0 ≤ r1) (h12 : r1 ≤ r2) (x y : Nat) :
    ∀ v ∈ dilateSamples source width height r1 x y,
      v ∈ dilateSamples source width height r2 x y := by
  intro v hv
  unfold dilateSamples at hv ⊢
  rcases List.mem_flatMap.mp hv with ⟨ky, hky, hin⟩
  rcases List.mem_map.mp hin with ⟨kx, hkx, rfl⟩
  have hky' := (mem_offsets_iff h1 ky).mp hky
  have hkx' := (mem_offsets_iff h1 kx).mp hkx
  exact List.mem_flatMap.mpr ⟨ky, (mem_offsets_iff (le_trans h1 h12) ky).mpr (by omega),
    List.mem_map.mpr ⟨kx, (mem_offsets_iff (le_trans h1 h12) kx).mpr (by omega), rfl⟩⟩

theorem self_mem_dilateSamples (source : List Nat) {width height : Nat} {r : Int}
    (hr : 1 ≤ r) {x y : Nat} (hx : x < width) (hy : y < height) :
    px source (y * width + x) ∈ dilateSamples source width height r x y := by
  unfold dilateSamples
  refine List.mem_flatMap.mpr ⟨0, (mem_offsets_iff (by omega) 0).mpr (by omega),
    List.mem_map.mpr ⟨0, (mem_offsets_iff (by omega) 0).mpr (by omega), ?_⟩⟩
  have e1 : clampI ((y : Int) + 0) 0 ((height : Int) - 1) = (y : Int) := by
    unfold clampI; omega
  have e2 : clampI ((x : Int) + 0) 0 ((width : Int) - 1) = (x : Int) := by
    unfold clampI; omega
  rw [e1, e2, Int.toNat_natCast, Int.toNat_natCast]

theorem getD_dilate_pos {source : List Nat} {width height : Nat} {r : Int}
    (hr : 0 < r) (hlen : source.length = width * height) {i : Nat}
    (hi : i < width * height) :
    (dilate source width height r).getD i 0 =
      scan255 (dilateSamples source width height r (i % width) (i / width)) := by
  unfold dilate
  rw [if_neg (by omega), getD_map_range, if_pos (hlen ▸ hi), if_pos hi]

theorem coords_of_lt {width height i : Nat} (hi : i < width * height) :
    i % width < width ∧ i / width < height ∧ (i / width) * width + i % width = i := by
  have hw : 0 < width := by
    rcases Nat.eq_zero_or_pos width with h | h
    · subst h; simp at hi
    · exact h
  refine ⟨Nat.mod_lt _ hw, ?_, ?_⟩
  · exact (Nat.div_lt_iff_lt_mul hw).mpr (Nat.mul_comm width height ▸ hi)
  · rw [Nat.mul_comm (i / width) width]
    exact Nat.div_add_mod i width

theorem dilateSamples_foldl_max_le_of_subset {source : List Nat}
    (hbyte : ∀ v ∈ source, v ≤ 255) {width height : Nat} {r1 r2 : Int}
    (h1 : 0 < r1) (h12 : r1 ≤ r2) (x y : Nat) :
    scan255 (dilateSamples source width height r1 x y) ≤
      scan255 (dilateSamples source width height r2 x y) := by
  rw [scan255_eq_foldl_max (dilateSamples_le_255 hbyte width height r1 x y),
    scan255_eq_foldl_max (dilateSamples_le_255 hbyte width height r2 x y)]
  exact foldl_max_subset_le (dilateSamples_mono (by omega) h12 x y)

/-- C7: dilation is monotone in the radius, pixel-wise, for every
single-channel mask (byte values) of the nominal size, and radius 0 is the
identity copy. -/
theorem dilate_monotone_in_radius (source : List Nat) (width height : Nat)
    (r1 r2 : Int) (hlen : source.length = width * height)
    (hbyte : ∀ v ∈ source, v ≤ 255) (hr : r1 < r2) :
    (∀ i < width * height,
      (dilate source width height r1).getD i 0 ≤ (dilate source width height r2).getD i 0) ∧
    dilate source width height 0 = source := by
  constructor
  · intro i hi
    obtain ⟨hx, hy, hxy⟩ := coords_of_lt hi
    by_cases h2 : r2 ≤ 0
    · rw [dilate, if_pos (by omega), dilate, if_pos h2]
    · have h2' : 0 < r2 := by omega
      rw [getD_dilate_pos h2' hlen hi]
      by_cases h1 : r1 ≤ 0
      · rw [dilate, if_pos h1]
        rw [scan255_eq_foldl_max (dilateSamples_le_255 hbyte width height r2 _ _)]
        have hmem := self_mem_dilateSamples source (r := r2) (by omega) hx hy
        rw [hxy] at hmem
        exact le_foldl_max_of_mem hmem 0
      · rw [getD_dilate_pos (by omega) hlen hi]
        exact dilateSamples_foldl_max_le_of_subset hbyte (by omega) (by omega) _ _
  · rw [dilate, if_pos (by omega)]

/-- Witness for C7 at a concrete mask and radii 0 < 1. -/
theorem dilate_monotone_in_radius_witness :
    (∀ i < 1 * 1,
      (dilate [0] 1 1 0).getD i 0 ≤ (dilate [0] 1 1 1).getD i 0) ∧
    dilate [0] 1 1 0 = [0] :=
  dilate_monotone_in_radius [0] 1 1 0 1 (by decide) (by decide) (by decide)

/-! ## Flood-fill invariants (claims C8, C9, and the border-flood lemma) -/

theorem getD_set_self {l : List Bool} {i : Nat} (h : i < l.length) (a d : Bool) :
    (l.set i a).getD i d = a := by
  rw [List.getD_eq_getElem?_getD, List.getElem?_set_self h]
  rfl

theorem getD_set_ne {l : List Bool} {i j : Nat} (h : i ≠ j) (a d : Bool) :
    (l.set i a).getD j d = l.getD j d := by
  rw [List.getD_eq_getElem?_getD, List.getElem?_set_ne h, ← List.getD_eq_getElem?_getD]

theorem flatIdx_lt {width height : Nat} {x y : Int} (hx0 : 0 ≤ x) (hx : x < (width : Int))
    (hy0 : 0 ≤ y) (hy : y < (height : Int)) :
    (y * width + x).toNat < width * height := by
  have h1 : y * (width : Int) ≤ (height : Int) * width - width := by
    have h := mul_le_mul_of_nonneg_right (show y ≤ (height : Int) - 1 by omega)
      (show (0 : Int) ≤ width by omega)
    rw [sub_mul, one_mul] at h
    exact h
  have h2 : ((width * height : Nat) : Int) = (height : Int) * width := by push_cast; ring
  have h4 : 0 ≤ y * (width : Int) := mul_nonneg hy0 (by omega)
  omega

/-- The guard state of a pixel after `enqueue(x, y)` has been attempted on
it: out of bounds, already visited, or blocked by a nonzero source pixel. -/
def nbrOK (source : List Nat) (width height : Nat) (s : FloodState) (x y : Int) : Prop :=
  x < 0 ∨ (width : Int) ≤ x ∨ y < 0 ∨ (height : Int) ≤ y ∨
    s.visited.getD ((y * width + x).toNat) false = true ∨
    px source ((y * width + x).toNat) ≠ 0

/-- Exactly one of: the enqueue call was a no-op on an already-settled pixel,
or it appended the flat index of an in-bounds, unvisited, zero-source pixel
and marked it visited. -/
theorem floodEnqueue_cases (source : List Nat) (width height : Nat) (s : FloodState)
    (x y : Int) :
    (floodEnqueue source width height s x y = s ∧ nbrOK source width height s x y) ∨
    (0 ≤ x ∧ x < (width : Int) ∧ 0 ≤ y ∧ y < (height : Int) ∧
      s.visited.getD ((y * width + x).toNat) false = false ∧
      px source ((y * width + x).toNat) = 0 ∧
      floodEnqueue source width height s x y =
        ⟨s.visited.set ((y * width + x).toNat) true,
          s.queue ++ [(y * width + x).toNat], s.head⟩) := by
  unfold floodEnqueue nbrOK
  by_cases h1 : x < 0 ∨ (width : Int) ≤ x ∨ y < 0 ∨ (height : Int) ≤ y
  · rw [if_pos h1]
    exact Or.inl ⟨rfl, by tauto⟩
  · rw [if_neg h1]
    by_cases h2 : s.visited.getD ((y * width + x).toNat) false = true ∨
        px source ((y * width + x).toNat) ≠ 0
    · rw [if_pos h2]
      exact Or.inl ⟨rfl, by tauto⟩
    · rw [if_neg h2]
      push_neg at h1 h2
      refine Or.inr ⟨by omega, by omega, by omega, by omega, ?_, by simpa using h2.2, rfl⟩
      rcases Bool.eq_false_or_eq_true (s.visited.getD ((y * width + x).toNat) false) with h | h
      · exact absurd h h2.1
      · exact h

theorem floodEnqueue_visited_mono {source : List Nat} {width height : Nat}
    {s : FloodState} {x y : Int} {i : Nat}
    (h : s.visited.getD i false = true) :
    (floodEnqueue source width height s x y).visited.getD i false = true := by
  rcases floodEnqueue_cases source width height s x y with ⟨he, _⟩ | ⟨_, _, _, _, hv, _, he⟩
  · rw [he]; exact h
  · rw [he]
    have hne : (y * width + x).toNat ≠ i := fun hEq => by rw [hEq] at hv; rw [h] at hv; cases hv
    rw [getD_set_ne hne]
    exact h

theorem floodEnqueue_head (source : List Nat) (width height : Nat) (s : FloodState)
    (x y : Int) : (floodEnqueue source width height s x y).head = s.head := by
  rcases floodEnqueue_cases source width height s x y with ⟨he, _⟩ | ⟨_, _, _, _, _, _, he⟩ <;>
    rw [he]

theorem floodEnqueue_vlen {source : List Nat} {width height : Nat} {s : FloodState}
    {x y : Int} :
    (floodEnqueue source width height s x y).visited.length = s.visited.length := by
  rcases floodEnqueue_cases source width height s x y with ⟨he, _⟩ | ⟨_, _, _, _, _, _, he⟩ <;>
    rw [he]
  exact List.length_set _ _ _

theorem floodEnqueue_queue_getD {source : List Nat} {width height : Nat} {s : FloodState}
    {x y : Int} {k : Nat} (hk : k < s.queue.length) :
    (floodEnqueue source width height s x y).queue.getD k 0 = s.queue.getD k 0 := by
  rcases floodEnqueue_cases source width height s x y with ⟨he, _⟩ | ⟨_, _, _, _, _, _, he⟩ <;>
    rw [he]
  exact List.getD_append _ _ _ _ hk

theorem floodEnqueue_queue_len {source : List Nat} {width height : Nat} {s : FloodState}
    {x y : Int} :
    s.queue.length ≤ (floodEnqueue source width height s x y).queue.length := by
  rcases floodEnqueue_cases source width height s x y with ⟨he, _⟩ | ⟨_, _, _, _, _, _, he⟩ <;>
    rw [he]
  simp

theorem floodEnqueue_queue_mem {source : List Nat} {width height : Nat} {s : FloodState}
    {x y : Int} {i : Nat} (h : i ∈ s.queue) :
    i ∈ (floodEnqueue source width height s x y).queue := by
  rcases floodEnqueue_cases source width height s x y with ⟨he, _⟩ | ⟨_, _, _, _, _, _, he⟩
  · rw [he]; exact h
  · rw [he]; exact List.mem_append_left _ h

theorem nbrOK_mono {source : List Nat} {width height : Nat} {s : FloodState}
    {x' y' : Int} {x y : Int} (h : nbrOK source width height s x y) :
    nbrOK source width height (floodEnqueue source width height s x' y') x y := by
  unfold nbrOK at h ⊢
  rcases h with h | h | h | h | h | h
  · exact Or.inl h
  · exact Or.inr (Or.inl h)
  · exact Or.inr (Or.inr (Or.inl h))
  · exact Or.inr (Or.inr (Or.inr (Or.inl h)))
  · exact Or.inr (Or.inr (Or.inr (Or.inr (Or.inl (floodEnqueue_visited_mono h)))))
  · exact Or.inr (Or.inr (Or.inr (Or.inr (Or.inr h))))

/-- After `enqueue(x, y)` itself runs, the pixel `(x, y)` needs no further
work. -/
theorem floodEnqueue_nbrOK_self {source : List Nat} {width height : Nat}
    {s : FloodState} (hlen : s.visited.length = width * height) (x y : Int) :
    nbrOK source width height (floodEnqueue source width height s x y) x y := by
  rcases floodEnqueue_cases source width height s x y with ⟨he, hn⟩ | ⟨h1, h2, h3, h4, _, _, he⟩
  · rw [he]; exact hn
  · rw [he]
    unfold nbrOK
    refine Or.inr (Or.inr (Or.inr (Or.inr (Or.inl ?_))))
    exact getD_set_self (hlen ▸ flatIdx_lt h1 h2 h3 h4) _ _

/-- A dequeued pixel has had `enqueue` attempted on all four neighbours. -/
def processedAt (source : List Nat) (width height : Nat) (s : FloodState) (idx : Nat) :
    Prop :=
  nbrOK source width height s (((idx % width : Nat) : Int) - 1) ((idx / width : Nat)) ∧
  nbrOK source width height s (((idx % width : Nat) : Int) + 1) ((idx / width : Nat)) ∧
  nbrOK source width height s ((idx % width : Nat)) (((idx / width : Nat) : Int) - 1) ∧
  nbrOK source width height s ((idx % width : Nat)) (((idx / width : Nat) : Int) + 1)

theorem nbrOK_visited_mono {source : List Nat} {width height : Nat} {s t : FloodState}
    {x y : Int}
    (hv : ∀ i, s.visited.getD i false = true → t.visited.getD i false = true)
    (h : nbrOK source width height s x y) : nbrOK source width height t x y := by
  unfold nbrOK at h ⊢
  rcases h with h | h | h | h | h | h
  · exact Or.inl h
  · exact Or.inr (Or.inl h)
  · exact Or.inr (Or.inr (Or.inl h))
  · exact Or.inr (Or.inr (Or.inr (Or.inl h)))
  · exact Or.inr (Or.inr (Or.inr (Or.inr (Or.inl (hv _ h)))))
  · exact Or.inr (Or.inr (Or.inr (Or.inr (Or.inr h))))

theorem processedAt_visited_mono {source : List Nat} {width height : Nat}
    {s t : FloodState} {idx : Nat}
    (hv : ∀ i, s.visited.getD i false = true → t.visited.getD i false = true)
    (h : processedAt source width height s idx) :
    processedAt source width height t idx :=
  ⟨nbrOK_visited_mono hv h.1, nbrOK_visited_mono hv h.2.1,
    nbrOK_visited_mono hv h.2.2.1, nbrOK_visited_mono hv h.2.2.2⟩

/-- The head-independent part of the BFS invariant: the visited array has the
nominal size, and the worklist holds pairwise-distinct in-range zero-source
pixels, in sync with the visited flags in both directions. -/
structure FloodSync (source : List Nat) (width height : Nat) (s : FloodState) : Prop where
  vlen : s.visited.length = width * height
  nodup : s.queue.Nodup
  fwd : ∀ i ∈ s.queue, i < width * height ∧ s.visited.getD i false = true ∧ px source i = 0
  rev : ∀ i, s.visited.getD i false = true → i ∈ s.queue

theorem floodEnqueue_sync {source : List Nat} {width height : Nat} {s : FloodState}
    (hs : FloodSync source width height s) (x y : Int) :
    FloodSync source width height (floodEnqueue source width height s x y) := by
  rcases floodEnqueue_cases source width height s x y with ⟨he, _⟩ | ⟨h1, h2, h3, h4, hv, hp, he⟩
  · rw [he]; exact hs
  · have hidx : (y * width + x).toNat < width * height := flatIdx_lt h1 h2 h3 h4
    have hnotmem : (y * width + x).toNat ∉ s.queue := fun hmem => by
      rw [(hs.fwd _ hmem).2.1] at hv
      cases hv
    rw [he]
    constructor
    · simpa using hs.vlen
    · refine List.nodup_append.mpr ⟨hs.nodup, List.nodup_singleton _, ?_⟩
      intro a ha hb
      exact hnotmem (List.mem_singleton.mp hb ▸ ha)
    · intro i hi
      rcases List.mem_append.mp hi with hi | hi
      · obtain ⟨hb, hvis, hz⟩ := hs.fwd i hi
        have hne : (y * width + x).toNat ≠ i := fun hEq => by
          rw [hEq] at hv; rw [hvis] at hv; cases hv
        exact ⟨hb, by rw [getD_set_ne hne]; exact hvis, hz⟩
      · rcases List.mem_singleton.mp hi with rfl
        exact ⟨hidx, getD_set_self (hs.vlen ▸ hidx) _ _, hp⟩
    · intro i hvis
      by_cases hEq : (y * width + x).toNat = i
      · subst hEq
        exact List.mem_append_right _ (List.mem_singleton.mpr rfl)
      · rw [getD_set_ne hEq] at hvis
        exact List.mem_append_left _ (hs.rev i hvis)

/-- The full BFS loop invariant: sync, the cursor never overtakes the tail,
and every pixel strictly below the cursor has been fully processed. -/
structure FloodInv (source : List Nat) (width height : Nat) (s : FloodState) : Prop where
  sync : FloodSync source width height s
  headle : s.head ≤ s.queue.length
  proc : ∀ k, k < s.head → processedAt source width height s (s.queue.getD k 0)

theorem floodEnqueue_inv {source : List Nat} {width height : Nat} {s : FloodState}
    (hs : FloodInv source width height s) (x y : Int) :
    FloodInv source width height (floodEnqueue source width height s x y) := by
  refine ⟨floodEnqueue_sync hs.sync x y, ?_, ?_⟩
  · rw [floodEnqueue_head]
    exact le_trans hs.headle floodEnqueue_queue_len
  · intro k hk
    rw [floodEnqueue_head] at hk
    rw [floodEnqueue_queue_getD (lt_of_lt_of_le hk hs.headle)]
    exact processedAt_visited_mono (fun i hi => floodEnqueue_visited_mono hi) (hs.proc k hk)

theorem floodStep_head (source : List Nat) (width height : Nat) (s : FloodState) :
    (floodStep source width height s).head = s.head + 1 := by
  unfold floodStep
  rw [floodEnqueue_head, floodEnqueue_head, floodEnqueue_head, floodEnqueue_head]

theorem floodStep_visited_mono {source : List Nat} {width height : Nat} {s : FloodState}
    {i : Nat} (h : s.visited.getD i false = true) :
    (floodStep source width height s).visited.getD i false = true := by
  unfold floodStep
  exact floodEnqueue_visited_mono (floodEnqueue_visited_mono
    (floodEnqueue_visited_mono (floodEnqueue_visited_mono h)))

theorem floodStep_eq (source : List Nat) (width height : Nat) (s : FloodState) :
    floodStep source width height s =
      floodEnqueue source width height
        (floodEnqueue source width height
          (floodEnqueue source width height
            (floodEnqueue source width height ⟨s.visited, s.queue, s.head + 1⟩
              (((s.queue.getD s.head 0 % width : Nat) : Int) - 1)
              ((s.queue.getD s.head 0 / width : Nat)))
            (((s.queue.getD s.head 0 % width : Nat) : Int) + 1)
            ((s.queue.getD s.head 0 / width : Nat)))
          ((s.queue.getD s.head 0 % width : Nat))
          (((s.queue.getD s.head 0 / width : Nat) : Int) - 1))
        ((s.queue.getD s.head 0 % width : Nat))
        (((s.queue.getD s.head 0 / width : Nat) : Int) + 1) := rfl

theorem floodStep_queue_len {source : List Nat} {width height : Nat} {s : FloodState} :
    s.queue.length ≤ (floodStep source width height s).queue.length := by
  rw [floodStep_eq]
  have h0 : s.queue.length =
      (FloodState.mk s.visited s.queue (s.head + 1)).queue.length := rfl
  rw [h0]
  exact le_trans floodEnqueue_queue_len (le_trans floodEnqueue_queue_len
    (le_trans floodEnqueue_queue_len floodEnqueue_queue_len))

theorem floodStep_queue_getD {source : List Nat} {width height : Nat} {s : FloodState}
    {k : Nat} (hk : k < s.queue.length) :
    (floodStep source width height s).queue.getD k 0 = s.queue.getD k 0 := by
  rw [floodStep_eq]
  have hk1 : k < (FloodState.mk s.visited s.queue (s.head + 1)).queue.length := hk
  have hk2 : k < (floodEnqueue source width height
      (FloodState.mk s.visited s.queue (s.head + 1))
      (((s.queue.getD s.head 0 % width : Nat) : Int) - 1)
      ((s.queue.getD s.head 0 / width : Nat))).queue.length :=
    lt_of_lt_of_le hk1 floodEnqueue_queue_len
  have hk3 : k < (floodEnqueue source width height
      (floodEnqueue source width height
        (FloodState.mk s.visited s.queue (s.head + 1))
        (((s.queue.getD s.head 0 % width : Nat) : Int) - 1)
        ((s.queue.getD s.head 0 / width : Nat)))
      (((s.queue.getD s.head 0 % width : Nat) : Int) + 1)
      ((s.queue.getD s.head 0 / width : Nat))).queue.length :=
    lt_of_lt_of_le hk2 floodEnqueue_queue_len
  have hk4 : k < (floodEnqueue source width height
      (floodEnqueue source width height
        (floodEnqueue source width height
          (FloodState.mk s.visited s.queue (s.head + 1))
          (((s.queue.getD s.head 0 % width : Nat) : Int) - 1)
          ((s.queue.getD s.head 0 / width : Nat)))
        (((s.queue.getD s.head 0 % width : Nat) : Int) + 1)
        ((s.queue.getD s.head 0 / width : Nat)))
      ((s.queue.getD s.head 0 % width : Nat))
      (((s.queue.getD s.head 0 / width : Nat) : Int) - 1)).queue.length :=
    lt_of_lt_of_le hk3 floodEnqueue_queue_len
  rw [floodEnqueue_queue_getD hk4, floodEnqueue_queue_getD hk3,
    floodEnqueue_queue_getD hk2, floodEnqueue_queue_getD hk1]

theorem floodStep_inv {source : List Nat} {width height : Nat} {s : FloodState}
    (hs : FloodInv source width height s) (hlt : s.head < s.queue.length) :
    FloodInv source width height (floodStep source width height s) := by
  have hs1 : FloodSync source width height ⟨s.visited, s.queue, s.head + 1⟩ :=
    ⟨hs.sync.vlen, hs.sync.nodup, hs.sync.fwd, hs.sync.rev⟩
  set q : Nat := s.queue.getD s.head 0 with hq
  set e1 := floodEnqueue source width height ⟨s.visited, s.queue, s.head + 1⟩
    (((q % width : Nat) : Int) - 1) ((q / width : Nat)) with he1
  set e2 := floodEnqueue source width height e1
    (((q % width : Nat) : Int) + 1) ((q / width : Nat)) with he2
  set e3 := floodEnqueue source width height e2
    ((q % width : Nat)) (((q / width : Nat) : Int) - 1) with he3
  set e4 := floodEnqueue source width height e3
    ((q % width : Nat)) (((q / width : Nat) : Int) + 1) with he4
  have hstep : floodStep source width height s = e4 := by
    rw [floodStep_eq, he4, he3, he2, he1]
  have hv1 : e1.visited.length = width * height := by
    rw [he1, floodEnqueue_vlen]; exact hs.sync.vlen
  have hv2 : e2.visited.length = width * height := by
    rw [he2, floodEnqueue_vlen]; exact hv1
  have hv3 : e3.visited.length = width * height := by
    rw [he3, floodEnqueue_vlen]; exact hv2
  have hsync4 : FloodSync source width height e4 := by
    rw [he4, he3, he2, he1]
    exact floodEnqueue_sync (floodEnqueue_sync (floodEnqueue_sync
      (floodEnqueue_sync hs1 _ _) _ _) _ _) _ _
  have hmono14 : ∀ i, e1.visited.getD i false = true → e4.visited.getD i false = true := by
    intro i hi
    rw [he4, he3, he2]
    exact floodEnqueue_visited_mono (floodEnqueue_visited_mono (floodEnqueue_visited_mono hi))
  have hmono24 : ∀ i, e2.visited.getD i false = true → e4.visited.getD i false = true := by
    intro i hi
    rw [he4, he3]
    exact floodEnqueue_visited_mono (floodEnqueue_visited_mono hi)
  have hmono34 : ∀ i, e3.visited.getD i false = true → e4.visited.getD i false = true := by
    intro i hi
    rw [he4]
    exact floodEnqueue_visited_mono hi
  have hmono04 : ∀ i, s.visited.getD i false = true → e4.visited.getD i false = true := by
    intro i hi
    refine hmono14 i ?_
    rw [he1]
    exact floodEnqueue_visited_mono hi
  have hproc : processedAt source width height e4 q := by
    refine ⟨?_, ?_, ?_, ?_⟩
    · exact nbrOK_visited_mono hmono14 (he1 ▸ floodEnqueue_nbrOK_self
        (show (FloodState.mk s.visited s.queue (s.head + 1)).visited.length =
          width * height from hs.sync.vlen) _ _)
    · exact nbrOK_visited_mono hmono24 (he2 ▸ floodEnqueue_nbrOK_self hv1 _ _)
    · exact nbrOK_visited_mono hmono34 (he3 ▸ floodEnqueue_nbrOK_self hv2 _ _)
    · exact he4 ▸ floodEnqueue_nbrOK_self hv3 _ _
  rw [hstep]
  refine ⟨hsync4, ?_, ?_⟩
  · have : e4.head = s.head + 1 := by
      rw [he4, floodEnqueue_head, he3, floodEnqueue_head, he2, floodEnqueue_head,
        he1, floodEnqueue_head]
    rw [this]
    calc s.head + 1 ≤ s.queue.length := hlt
      _ ≤ e4.queue.length := hstep ▸ floodStep_queue_len
  · intro k hk
    have hhead : e4.head = s.head + 1 := by
      rw [he4, floodEnqueue_head, he3, floodEnqueue_head, he2, floodEnqueue_head,
        he1, floodEnqueue_head]
    rw [hhead] at hk
    have hkq : k < s.queue.length := lt_of_lt_of_le (by omega) hlt
    have hgd : e4.queue.getD k 0 = s.queue.getD k 0 := hstep ▸ floodStep_queue_getD hkq
    rw [hgd]
    rcases Nat.lt_or_ge k s.head with hks | hks
    · exact processedAt_visited_mono hmono04 (hs.proc k hks)
    · have hkh : k = s.head := by omega
      subst hkh
      rw [← hq]
      exact hproc

/-- Any property preserved by each iteration survives a `foldl`. -/
theorem foldl_pres {β : Type} (P : FloodState → Prop) (f : FloodState → β → FloodState)
    (hf : ∀ s b, P s → P (f s b)) :
    ∀ (l : List β) (s : FloodState), P s → P (l.foldl f s) := by
  intro l
  induction l with
  | nil => intro s hP; exact hP
  | cons a t ih => intro s hP; exact ih (f s a) (hf s a hP)

theorem floodInit_inv (source : List Nat) (width height : Nat) :
    FloodInv source width height (floodInit source width height) := by
  have h0 : FloodInv source width height
      ⟨List.replicate (width * height) false, [], 0⟩ := by
    refine ⟨⟨by simp, List.nodup_nil, ?_, ?_⟩, Nat.le_refl 0, ?_⟩
    · intro i hi
      cases hi
    · intro i hi
      rw [List.getD_eq_getElem?_getD, List.getElem?_replicate] at hi
      by_cases h : i < width * height <;> simp [h] at hi
    · intro k hk
      cases hk
  unfold floodInit
  refine foldl_pres (FloodInv source width height) _
    (fun s y hP => floodEnqueue_inv (floodEnqueue_inv hP _ _) _ _) _ _
    (foldl_pres (FloodInv source width height) _
      (fun s x hP => floodEnqueue_inv (floodEnqueue_inv hP _ _) _ _) _ _ h0)

theorem floodInit_head (source : List Nat) (width height : Nat) :
    (floodInit source width height).head = 0 := by
  unfold floodInit
  refine foldl_pres (fun s => s.head = 0)
    (fun s (y : Nat) => floodEnqueue source width height
      (floodEnqueue source width height s 0 (y : Int)) ((width : Int) - 1) (y : Int))
    (fun s y hP => by
      show (floodEnqueue source width height _ _ _).head = 0
      rw [floodEnqueue_head, floodEnqueue_head]; exact hP) _ _ ?_
  exact foldl_pres (fun s => s.head = 0)
    (fun s (x : Nat) => floodEnqueue source width height
      (floodEnqueue source width height s (x : Int) 0) (x : Int) ((height : Int) - 1))
    (fun s x hP => by
      show (floodEnqueue source width height _ _ _).head = 0
      rw [floodEnqueue_head, floodEnqueue_head]; exact hP) _ _ rfl

theorem floodLoop_inv {source : List Nat} {width height : Nat} (fuel : Nat)
    {s : FloodState} (hs : FloodInv source width height s) :
    FloodInv source width height (floodLoop source width height fuel s) := by
  induction fuel generalizing s with
  | zero => exact hs
  | succ n ih =>
    unfold floodLoop
    by_cases h : s.head < s.queue.length
    · rw [if_pos h]
      exact ih (floodStep_inv hs h)
    · rw [if_neg h]
      exact hs

/-- Either the loop has reached its exit condition, or it has run for every
unit of fuel, advancing the cursor by exactly one per iteration. -/
theorem floodLoop_exit_or_head (source : List Nat) (width height : Nat) :
    ∀ (fuel : Nat) (s : FloodState),
      (floodLoop source width height fuel s).queue.length ≤
        (floodLoop source width height fuel s).head ∨
      (floodLoop source width height fuel s).head = s.head + fuel := by
  intro fuel
  induction fuel with
  | zero => intro s; exact Or.inr rfl
  | succ n ih =>
    intro s
    unfold floodLoop
    by_cases h : s.head < s.queue.length
    · rw [if_pos h]
      rcases ih (floodStep source width height s) with h2 | h2
      · exact Or.inl h2
      · refine Or.inr ?_
        rw [h2, floodStep_head]
        omega
    · rw [if_neg h]
      exact Or.inl (Nat.le_of_not_lt h)

/-- A duplicate-free worklist of in-range pixel indices cannot exceed the
pixel count: the preallocated `Uint32Array(total)` never overflows. -/
theorem queue_len_le_total {source : List Nat} {width height : Nat} {s : FloodState}
    (hs : FloodSync source width height s) : s.queue.length ≤ width * height := by
  have hsub : s.queue.toFinset ⊆ Finset.range (width * height) := by
    intro a ha
    rw [List.mem_toFinset] at ha
    exact Finset.mem_range.mpr (hs.fwd a ha).1
  calc s.queue.length = s.queue.toFinset.card := (List.toFinset_card_of_nodup hs.nodup).symm
    _ ≤ (Finset.range (width * height)).card := Finset.card_le_card hsub
    _ = width * height := Finset.card_range _

theorem floodFinal_inv (source : List Nat) (width height : Nat) :
    FloodInv source width height (floodFinal source width height) :=
  floodLoop_inv _ (floodInit_inv source width height)

/-- The fuel `width*height` always reaches the loop exit: at the final state
the cursor has caught up with the worklist tail. -/
theorem floodFinal_exit (source : List Nat) (width height : Nat) :
    (floodFinal source width height).queue.length ≤ (floodFinal source width height).head := by
  rcases floodLoop_exit_or_head source width height (width * height)
      (floodInit source width height) with h | h
  · exact h
  · rw [floodInit_head] at h
    unfold floodFinal
    rw [h]
    simpa using queue_len_le_total (floodFinal_inv source width height).sync

/-- C8: the flood fill enqueues every pixel at most once (the worklist is
duplicate-free), the worklist never exceeds its preallocated `width*height`
capacity, and the BFS terminates after exactly as many dequeues as enqueues —
in particular after at most `width*height` dequeues. -/
theorem floodFill_visits_each_pixel_once (source : List Nat) (width height : Nat) :
    (floodFinal source width height).queue.Nodup ∧
    (floodFinal source width height).queue.length ≤ width * height ∧
    (floodFinal source width height).head = (floodFinal source width height).queue.length ∧
    (floodFinal source width height).head ≤ width * height := by
  have hinv := floodFinal_inv source width height
  have hexit := floodFinal_exit source width height
  have hlen := queue_len_le_total hinv.sync
  exact ⟨hinv.sync.nodup, hlen, Nat.le_antisymm hexit hinv.headle ▸ rfl, by
    have := hinv.headle
    omega⟩

/-- C9: every nonzero input pixel (an edge/wall marking) comes out as 255
from the interior fill: it is never enqueued by the border flood, stays
unvisited, and unvisited pixels map to 255. -/
theorem fillClosedRegions_keeps_nonzero (source : List Nat) (width height : Nat)
    (i : Nat) (hi : i < width * height) (hnz : px source i ≠ 0) :
    px (fillClosedRegions source width height) i = 255 := by
  unfold fillClosedRegions px
  rw [getD_map_range, if_pos hi]
  have hv : ¬((floodFinal source width height).visited.getD i false = true) := by
    intro hvis
    have hmem := (floodFinal_inv source width height).sync.rev i hvis
    exact hnz ((floodFinal_inv source width height).sync.fwd i hmem).2.2
  simp only [Bool.not_eq_true] at hv
  rw [hv]
  rfl

/-- Witness for C9 on a one-pixel nonzero mask. -/
theorem fillClosedRegions_keeps_nonzero_witness :
    px (fillClosedRegions [255] 1 1) 0 = 255 :=
  fillClosedRegions_keeps_nonzero [255] 1 1 0 (by decide) (by decide)

/-! ## The border flood reaches every pixel of an all-zero mask -/

theorem floodEnqueue_marks {source : List Nat} {width height : Nat} {s : FloodState}
    (hlen : s.visited.length = width * height) {x y : Int}
    (hx0 : 0 ≤ x) (hx : x < (width : Int)) (hy0 : 0 ≤ y) (hy : y < (height : Int))
    (hz : px source ((y * width + x).toNat) = 0) :
    (floodEnqueue source width height s x y).visited.getD ((y * width + x).toNat)
      false = true := by
  rcases floodEnqueue_cases source width height s x y with ⟨he, hn⟩ | ⟨_, _, _, _, _, _, he⟩
  · rw [he]
    unfold nbrOK at hn
    rcases hn with h | h | h | h | h | h
    · omega
    · omega
    · omega
    · omega
    · exact h
    · exact absurd hz h
  · rw [he]
    exact getD_set_self (hlen ▸ flatIdx_lt hx0 hx hy0 hy) _ _

theorem floodEnqueue_vlen_pres {source : List Nat} {width height : Nat} {s : FloodState}
    {x y : Int} (h : s.visited.length = width * height) :
    (floodEnqueue source width height s x y).visited.length = width * height := by
  rw [floodEnqueue_vlen]; exact h

/-- After the first seeding loop, every pixel of row 0 of an all-zero mask is
visited. -/
theorem floodInit_row0 {source : List Nat} {width height : Nat}
    (hz : ∀ j, px source j = 0) (hh : 0 < height) :
    ∀ x < width, (floodInit source width height).visited.getD x false = true := by
  intro x hx
  unfold floodInit
  have hmark : ∀ (l : List Nat) (s : FloodState), s.visited.length = width * height →
      ∀ x ∈ l, x < width →
        ((l.foldl (fun s (x : Nat) => floodEnqueue source width height
          (floodEnqueue source width height s (x : Int) 0) (x : Int)
          ((height : Int) - 1)) s).visited.getD x false = true) := by
    intro l
    induction l with
    | nil => intro s _ x hx; cases hx
    | cons a t ih =>
      intro s hlen b hb hbw
      rw [List.foldl_cons]
      rcases List.mem_cons.mp hb with rfl | hbt
      · have h1 : (floodEnqueue source width height s (b : Int) 0).visited.getD
            (((0 : Int) * width + b).toNat) false = true :=
          floodEnqueue_marks hlen (by omega) (by omega) (by omega) (by omega) (hz _)
        have hidx : ((0 : Int) * width + b).toNat = b := by simp
        rw [hidx] at h1
        have h2 : (floodEnqueue source width height
            (floodEnqueue source width height s (b : Int) 0) (b : Int)
            ((height : Int) - 1)).visited.getD b false = true :=
          floodEnqueue_visited_mono h1
        exact foldl_pres (fun s => s.visited.getD b false = true) _
          (fun s c hP => floodEnqueue_visited_mono (floodEnqueue_visited_mono hP)) t _ h2
      · exact ih _ (floodEnqueue_vlen_pres (floodEnqueue_vlen_pres hlen)) b hbt hbw
  have h1 := hmark (List.range width) ⟨List.replicate (width * height) false, [], 0⟩
    (by simp) x (List.mem_range.mpr hx) hx
  exact foldl_pres (fun s => s.visited.getD x false = true) _
    (fun s c hP => floodEnqueue_visited_mono (floodEnqueue_visited_mono hP))
    (List.range height) _ h1

theorem floodLoop_visited_mono {source : List Nat} {width height : Nat} (fuel : Nat)
    {s : FloodState} {i : Nat} (h : s.visited.getD i false = true) :
    (floodLoop source width height fuel s).visited.getD i false = true := by
  induction fuel generalizing s with
  | zero => exact h
  | succ n ih =>
    unfold floodLoop
    by_cases hg : s.head < s.queue.length
    · rw [if_pos hg]
      exact ih (floodStep_visited_mono h)
    · rw [if_neg hg]
      exact h

theorem flat_mod_div {x y width : Nat} (hx : x < width) :
    (y * width + x) % width = x ∧ (y * width + x) / width = y := by
  have hw : 0 < width := by omega
  constructor
  · rw [Nat.mul_comm y width, Nat.mul_add_mod]
    exact Nat.mod_eq_of_lt hx
  · rw [Nat.mul_comm y width, Nat.mul_add_div hw, Nat.div_eq_of_lt hx]
    omega

/-- At the terminated state, visited pixels have had all their in-range
neighbours settled; on an all-zero mask this means the pixel below a visited
pixel is visited too. -/
theorem floodFinal_visited_down {source : List Nat} {width height : Nat}
    (hz : ∀ j, px source j = 0) {x y : Nat} (hx : x < width) (hy1 : y + 1 < height)
    (hvis : (floodFinal source width height).visited.getD (y * width + x) false = true) :
    (floodFinal source width height).visited.getD ((y + 1) * width + x) false = true := by
  set F := floodFinal source width height with hF
  have hinv := floodFinal_inv source width height
  have hexit := floodFinal_exit source width height
  have hmem := hinv.sync.rev _ hvis
  obtain ⟨n, hn, hqn⟩ := List.mem_iff_getElem.mp hmem
  have hngd : F.queue.getD n 0 = y * width + x := by
    rw [List.getD_eq_getElem _ _ hn, hqn]
  have hproc := hinv.proc n (lt_of_lt_of_le hn hexit)
  rw [hngd] at hproc
  have hcoords := flat_mod_div (y := y) hx
  unfold processedAt at hproc
  rw [hcoords.1, hcoords.2] at hproc
  have hdown := hproc.2.2.2
  unfold nbrOK at hdown
  have hidx : ((y : Int) + 1) * width + x = (((y + 1) * width + x : Nat) : Int) := by
    push_cast; ring
  rw [hidx, Int.toNat_natCast] at hdown
  rcases hdown with h | h | h | h | h | h
  · omega
  · omega
  · omega
  · omega
  · exact h
  · exact absurd (hz _) h

/-- On an all-zero mask, the border flood reaches every pixel. -/
theorem floodFinal_all_visited {source : List Nat} {width height : Nat}
    (hz : ∀ j, px source j = 0) (hh : 0 < height) :
    ∀ i < width * height, (floodFinal source width height).visited.getD i false = true := by
  have hrow : ∀ y < height, ∀ x < width,
      (floodFinal source width height).visited.getD (y * width + x) false = true := by
    intro y
    induction y with
    | zero =>
      intro _ x hx
      have h0 : (floodLoop source width height (width * height)
          (floodInit source width height)).visited.getD x false = true :=
        floodLoop_visited_mono (width * height) (floodInit_row0 hz hh x hx)
      show (floodFinal source width height).visited.getD (0 * width + x) false = true
      unfold floodFinal
      simpa using h0
    | succ n ih =>
      intro hn1 x hx
      exact floodFinal_visited_down hz hx hn1 (ih (by omega) x hx)
  intro i hi
  obtain ⟨hx, hy, hxy⟩ := coords_of_lt hi
  have := hrow (i / width) hy (i % width) hx
  rwa [hxy] at this

/-! ## Zero propagation through the pipeline (claims C2, C10) -/

/-- The flood-fill border invariant: an all-zero mask comes back all-zero. -/
theorem fillClosedRegions_all_zero {source : List Nat} {width height : Nat}
    (hz : ∀ j, px source j = 0) (hh : 0 < height) :
    ∀ j, px (fillClosedRegions source width height) j = 0 := by
  intro j
  unfold fillClosedRegions px
  rw [getD_map_range]
  by_cases hj : j < width * height
  · rw [if_pos hj, floodFinal_all_visited hz hh j hj]
    rfl
  · rw [if_neg hj]

theorem scan255_zero {l : List Nat} (hl : ∀ v ∈ l, v = 0) : scan255 l = 0 := by
  rw [scan255_eq_foldl_max (fun v hv => by rw [hl v hv]; norm_num)]
  exact Nat.le_antisymm (foldl_max_le (Nat.le_refl 0) (fun a ha => by rw [hl a ha]))
    (Nat.zero_le _)

theorem dilate_zero {source : List Nat} {width height : Nat} {radius : Int}
    (hz : ∀ j, px source j = 0) :
    ∀ j, px (dilate source width height radius) j = 0 := by
  intro j
  unfold dilate
  by_cases hr : radius ≤ 0
  · rw [if_pos hr]; exact hz j
  · rw [if_neg hr]
    unfold px
    rw [getD_map_range]
    by_cases hj : j < source.length
    · rw [if_pos hj]
      by_cases hjt : j < width * height
      · rw [if_pos hjt]
        refine scan255_zero ?_
        intro v hv
        unfold dilateSamples at hv
        rcases List.mem_flatMap.mp hv with ⟨ky, _, hky⟩
        rcases List.mem_map.mp hky with ⟨kx, _, rfl⟩
        exact hz _
      · rw [if_neg hjt]
    · rw [if_neg hj]

theorem jsRoundR_zero : jsRoundR 0 = 0 := by
  unfold jsRoundR
  rw [zero_add]
  norm_num [Int.floor_eq_iff]

theorem jsRoundQ_zero : jsRoundQ 0 = 0 := by
  unfold jsRoundQ
  rw [zero_add]
  norm_num [Int.floor_eq_iff]

theorem gaussianBlur_zero {source : List Nat} {width height radius : Nat} {sigma : ℝ}
    (hz : ∀ j, px source j = 0) :
    ∀ j, px (gaussianBlur source width height radius sigma) j = 0 := by
  intro j
  unfold gaussianBlur
  by_cases hr : radius = 0
  · rw [if_pos hr]; exact hz j
  · rw [if_neg hr]
    unfold px
    rw [getD_map_range]
    by_cases hj : j < source.length
    · rw [if_pos hj]
      by_cases hjt : j < width * height
      · rw [if_pos hjt]
        have hpass : ∀ i, blurPassX source width radius sigma i = 0 := by
          intro i
          unfold blurPassX
          refine Finset.sum_eq_zero ?_
          intro k _
          rw [hz _]
          norm_num
        have hsum : (∑ k ∈ Finset.range (2 * radius + 1),
            blurPassX source width radius sigma
              ((clampI ((j / width : Nat) + (k : Int) - (radius : Int)) 0
                ((height : Int) - 1)).toNat * width + j % width) *
            gaussianKernel radius sigma k) = 0 := by
          refine Finset.sum_eq_zero ?_
          intro k _
          rw [hpass]
          norm_num
        rw [hsum, jsRoundR_zero]
        rfl
      · rw [if_neg hjt]
    · rw [if_neg hj]

theorem toneMapValue_zero {combined : List Nat} {i : Nat} (h : px combined i = 0) :
    toneMapValue combined i = 0 := by
  unfold toneMapValue
  rw [h]
  have h1 : ((0 : Nat) : ℝ) / 255 = 0 := by norm_num
  have h2 : ((0 : ℝ) ^ MASK_GAMMA) = 0 := by
    refine Real.zero_rpow ?_
    unfold MASK_GAMMA
    norm_num
  rw [h1, h2, zero_mul, jsRoundR_zero]
  rfl

theorem combineMasks_zero {edgeBlurred colorBlurred objectRegionSoft : List Nat}
    {pixelCount : Nat} (he : ∀ j, px edgeBlurred j = 0)
    (hg : ∀ j, px objectRegionSoft j = 0) :
    ∀ j, px (combineMasks edgeBlurred colorBlurred objectRegionSoft pixelCount) j = 0 := by
  intro j
  unfold combineMasks px
  rw [getD_map_range]
  by_cases hj : j < pixelCount
  · rw [if_pos hj]
    have h1 := he j
    have h2 := hg j
    unfold px at h1 h2
    rw [h1, h2]
    have h3 : ((colorBlurred.getD j 0 : ℚ) * ((0 : Nat) : ℚ)) / 255 = 0 := by norm_num
    rw [h3, jsRoundQ_zero]
    rfl
  · rw [if_neg hj]

/-! ## The edge pipeline on a gradient-free image (claims C2, C10, C5) -/

theorem normalizedEdgeAt_zero {data : List Nat} {width height : Nat}
    (hmag : ∀ i, sobelMagnitudeAt data width height i = 0) (i : Nat) :
    normalizedEdgeAt data width height i = 0 := by
  unfold normalizedEdgeAt
  rw [hmag i, zero_mul, zero_mul]

theorem edgeThreshold_of_magZero {data : List Nat} {width height : Nat}
    (hmag : ∀ i, sobelMagnitudeAt data width height i = 0) :
    edgeThreshold data width height = 35 := by
  have hnorm := normalizedEdgeAt_zero hmag
  have hmean : edgeMean data width height = 0 := by
    unfold edgeMean
    rw [Finset.sum_eq_zero (fun i _ => hnorm i), zero_div]
  have hstd : edgeStdDev data width height = 0 := by
    unfold edgeStdDev
    rw [Finset.sum_eq_zero (fun i _ => by rw [hnorm i, hmean, sub_zero]; norm_num),
      zero_div, Real.sqrt_zero]
  unfold edgeThreshold clampR
  rw [hmean, hstd]
  norm_num

theorem binaryEdges_zero_of_magZero {data : List Nat} {width height : Nat}
    (hmag : ∀ i, sobelMagnitudeAt data width height i = 0) :
    ∀ j, px (binaryEdges data width height) j = 0 := by
  intro j
  unfold binaryEdges px
  rw [getD_map_range]
  by_cases hj : j < width * height
  · rw [if_pos hj, edgeThreshold_of_magZero hmag, normalizedEdgeAt_zero hmag,
      if_neg (by norm_num)]
  · rw [if_neg hj]

/-- If the Sobel stage produced no magnitude anywhere, the whole output mask
is zero: the edge mask is all-zero, so the object-region gate is all-zero and
the colour mask is fully suppressed. -/
theorem buildOcclusionMask_zero_of_magZero {width height : Nat} {data : List Nat}
    (hw : 0 < width) (hh : 0 < height)
    (hmag : ∀ i, sobelMagnitudeAt data width height i = 0) :
    ∀ j, px (buildOcclusionMask ⟨width, height, data⟩).data j = 0 := by
  intro j
  have hsealed : ∀ j, px (dilate (binaryEdges data width height) width height 3) j = 0 :=
    dilate_zero (binaryEdges_zero_of_magZero hmag)
  have hfilled : ∀ j, px (fillClosedRegions
      (dilate (binaryEdges data width height) width height 3) width height) j = 0 :=
    fillClosedRegions_all_zero hsealed hh
  have hmask : ∀ j, px (maskSourceOf data width height) j = 0 := by
    intro j
    unfold maskSourceOf px
    rw [getD_map_range]
    by_cases hj : j < width * height
    · rw [if_pos hj]
      have h1 := hsealed j
      have h2 := hfilled j
      unfold px at h1 h2
      rw [h1, h2]
      rfl
    · rw [if_neg hj]
  have hedge : ∀ j, px (edgeBlurredOf data width height) j = 0 := by
    intro j
    unfold edgeBlurredOf
    exact gaussianBlur_zero (dilate_zero hmask) j
  have hgate : ∀ j, px (objectRegionSoftOf data width height) j = 0 := by
    intro j
    unfold objectRegionSoftOf
    exact gaussianBlur_zero (dilate_zero hmask) j
  have hcomb : ∀ j, px (combinedOf data width height) j = 0 := by
    intro j
    unfold combinedOf
    exact combineMasks_zero hedge hgate j
  unfold buildOcclusionMask
  rw [if_neg (by simp; omega)]
  unfold px
  rw [getD_map_range]
  by_cases hj : j < 4 * (width * height)
  · rw [if_pos hj]
    exact toneMapValue_zero (hcomb _)
  · rw [if_neg hj]

/-- C10: with fewer than three columns or fewer than three rows the Sobel
loop has no interior pixels, the edge mask stays all-zero, the border flood
reaches every pixel, the gate suppresses the colour mask, and the output is
all-zero (in particular every alpha byte is 0) regardless of pixel colours. -/
theorem buildOcclusionMask_thin_input_all_zero (img : ImageData)
    (hdim : (0 < img.width ∧ img.width < 3) ∨ (0 < img.height ∧ img.height < 3)) :
    ∀ j, px (buildOcclusionMask img).data j = 0 := by
  intro j
  obtain ⟨width, height, data⟩ := img
  simp only at hdim
  by_cases hz : width = 0 ∨ height = 0
  · unfold buildOcclusionMask
    rw [if_pos (by simpa using hz)]
    unfold px
    by_cases hj : j < 4 * ((if width = 0 then 1 else width) *
        (if height = 0 then 1 else height))
    · rw [List.getD_eq_getElem?_getD, List.getElem?_replicate, if_pos (by simpa using hj)]
      rfl
    · rw [List.getD_eq_default _ _ (by simpa using Nat.le_of_not_lt hj)]
  · push_neg at hz
    refine buildOcclusionMask_zero_of_magZero (by omega) (by omega) ?_ j
    intro i
    unfold sobelMagnitudeAt
    rw [if_neg (by omega)]

/-- Witness for C10 at a 2×2 image with four different colours. -/
theorem buildOcclusionMask_thin_input_all_zero_witness :
    px (buildOcclusionMask ⟨2, 2, [255, 0, 0, 255, 0, 255, 0, 255,
      0, 0, 255, 255, 250, 250, 250, 255]⟩).data 3 = 0 :=
  buildOcclusionMask_thin_input_all_zero _ (by norm_num) 3

theorem flatNat_lt {width height x y : Nat} (hx : x < width) (hy : y < height) :
    y * width + x < width * height := by
  calc y * width + x < y * width + width := by omega
    _ = (y + 1) * width := by ring
    _ ≤ height * width := Nat.mul_le_mul_right width (by omega)
    _ = width * height := Nat.mul_comm _ _

theorem sobelX_sum : (∑ k ∈ Finset.range 9, SOBEL_X_KERNEL.getD k 0) = 0 := by
  norm_num [Finset.sum_range_succ, SOBEL_X_KERNEL]

theorem sobelY_sum : (∑ k ∈ Finset.range 9, SOBEL_Y_KERNEL.getD k 0) = 0 := by
  norm_num [Finset.sum_range_succ, SOBEL_Y_KERNEL]

/-- On an image whose pixels all have the same RGB colour, every 3×3
convolution with a kernel factors through the constant luma. -/
theorem sobelConv_uniform {data : List Nat} {width height r g b : Nat}
    (huni : ∀ i < width * height, px data (i * 4) = r ∧ px data (i * 4 + 1) = g ∧
      px data (i * 4 + 2) = b)
    (kernel : List ℝ) {x y : Nat} (hx1 : 1 ≤ x) (hx : x < width - 1)
    (hy1 : 1 ≤ y) (hy : y < height - 1) :
    sobelConv kernel data width x y =
      (0.2126 * r + 0.7152 * g + 0.0722 * b) * ∑ k ∈ Finset.range 9, kernel.getD k 0 := by
  unfold sobelConv
  rw [Finset.mul_sum]
  refine Finset.sum_congr rfl ?_
  intro k hk
  have hk9 : k < 9 := Finset.mem_range.mp hk
  have hxk : x + k % 3 - 1 < width := by omega
  have hyk : y + k / 3 - 1 < height := by omega
  obtain ⟨h1, h2, h3⟩ := huni _ (flatNat_lt hxk hyk)
  unfold grayscaleAt
  rw [h1, h2, h3]

theorem sobelMagnitudeAt_uniform {data : List Nat} {width height r g b : Nat}
    (huni : ∀ i < width * height, px data (i * 4) = r ∧ px data (i * 4 + 1) = g ∧
      px data (i * 4 + 2) = b) :
    ∀ i, sobelMagnitudeAt data width height i = 0 := by
  intro i
  unfold sobelMagnitudeAt
  by_cases hint : 1 ≤ i % width ∧ i % width < width - 1 ∧ 1 ≤ i / width ∧
      i / width < height - 1
  · rw [if_pos hint,
      sobelConv_uniform huni SOBEL_X_KERNEL hint.1 hint.2.1 hint.2.2.1 hint.2.2.2,
      sobelConv_uniform huni SOBEL_Y_KERNEL hint.1 hint.2.1 hint.2.2.1 hint.2.2.2,
      sobelX_sum, sobelY_sum, mul_zero]
    norm_num
  · rw [if_neg hint]

/-- C2: a uniform-colour image (zero gradient everywhere) yields an all-zero
final mask, and for any input every output byte lies in [0, 255]. -/
theorem buildOcclusionMask_uniform_zero_and_byte_range :
    (∀ (img : ImageData) (r g b : Nat), 0 < img.width → 0 < img.height →
      (∀ i < img.width * img.height, px img.data (i * 4) = r ∧
        px img.data (i * 4 + 1) = g ∧ px img.data (i * 4 + 2) = b) →
      ∀ j, px (buildOcclusionMask img).data j = 0) ∧
    (∀ img : ImageData, ∀ v ∈ (buildOcclusionMask img).data, v ≤ 255) := by
  constructor
  · intro img r g b hw hh huni j
    obtain ⟨width, height, data⟩ := img
    exact buildOcclusionMask_zero_of_magZero hw hh (sobelMagnitudeAt_uniform huni) j
  · intro img v hv
    unfold buildOcclusionMask at hv
    by_cases hz : img.width = 0 ∨ img.height = 0
    · rw [if_pos hz] at hv
      dsimp only at hv
      rw [List.eq_of_mem_replicate hv]
      norm_num
    · rw [if_neg hz] at hv
      dsimp only at hv
      rcases List.mem_map.mp hv with ⟨a, _, rfl⟩
      unfold toneMapValue
      exact Int.toNat_le.mpr (by omega)

/-- Witness for C2 on a 2×2 uniform image of colour (90, 80, 70). -/
theorem buildOcclusionMask_uniform_zero_witness :
    px (buildOcclusionMask ⟨2, 2, [90, 80, 70, 255, 90, 80, 70, 255,
      90, 80, 70, 255, 90, 80, 70, 255]⟩).data 7 = 0 :=
  buildOcclusionMask_uniform_zero_and_byte_range.1 _ 90 80 70 (by decide) (by decide)
    (by decide) 7

/-! ## Degenerate dimensions (claim C1) -/

/-- Counterexample to C1 as stated: a 0×2 input yields a 1×2 raster (JS
`new ImageData(width || 1, height || 1)`), not a 1×1 raster. -/
theorem buildOcclusionMask_degenerate_not_1x1 :
    (buildOcclusionMask ⟨0, 2, []⟩).height = 2 ∧
    (buildOcclusionMask ⟨0, 2, []⟩).height ≠ 1 := by
  constructor <;> simp [buildOcclusionMask]

/-- C1 (amended): a zero width or height short-circuits to an all-zero raster
of dimensions `(width || 1) × (height || 1)` — each zero dimension, and only
a zero dimension, is replaced by 1, so the result is 1×1 exactly when both
are zero. -/
theorem buildOcclusionMask_degenerate (img : ImageData)
    (h : img.width = 0 ∨ img.height = 0) :
    buildOcclusionMask img =
      ⟨(if img.width = 0 then 1 else img.width),
        (if img.height = 0 then 1 else img.height),
        List.replicate (4 * ((if img.width = 0 then 1 else img.width) *
          (if img.height = 0 then 1 else img.height))) 0⟩ := by
  unfold buildOcclusionMask
  rw [if_pos h]

/-- Witness for C1 (amended) at a fully degenerate 0×0 input: a 1×1 all-zero
raster. -/
theorem buildOcclusionMask_degenerate_witness :
    buildOcclusionMask ⟨0, 0, []⟩ = ⟨1, 1, List.replicate 4 0⟩ := by
  have h := buildOcclusionMask_degenerate ⟨0, 0, []⟩ (Or.inl rfl)
  simpa using h

/-! ## The adaptive thresholder against the spec formula (claim C5) -/

/-- Modelled from the spec (section 4.2): each gradient value normalized to
[0,255] by dividing by the maximum, all-zero when the maximum is 0. -/
noncomputable def specNormalizedAt (data : List Nat) (width height : Nat) (i : Nat) : ℝ :=
  if maxMagnitude data width height = 0 then 0
  else sobelMagnitudeAt data width height i / maxMagnitude data width height * 255

/-- Modelled from the spec: the mean of the normalized gradient values. -/
noncomputable def specMean (data : List Nat) (width height : Nat) : ℝ :=
  (∑ i ∈ Finset.range (width * height), specNormalizedAt data width height i) /
    (width * height : ℕ)

/-- Modelled from the spec: the population standard deviation of the
normalized gradient values. -/
noncomputable def specStdDev (data : List Nat) (width height : Nat) : ℝ :=
  Real.sqrt ((∑ i ∈ Finset.range (width * height),
    (specNormalizedAt data width height i - specMean data width height) ^ 2) /
    (width * height : ℕ))

/-- Modelled from the spec: `threshold = clamp(mean + stddev, 35, 180)`. -/
noncomputable def specThreshold (data : List Nat) (width height : Nat) : ℝ :=
  clampR (specMean data width height + specStdDev data width height) 35 180

/-- Modelled from the spec: binary mask, 255 exactly where the normalized
value reaches the threshold. -/
noncomputable def specBinaryEdges (data : List Nat) (width height : Nat) : List Nat :=
  (List.range (width * height)).map fun i =>
    if specThreshold data width height ≤ specNormalizedAt data width height i then 255 else 0

theorem le_foldl_max_init {α : Type} [LinearOrder α] (l : List α) (m : α) :
    m ≤ l.foldl max m := by
  induction l generalizing m with
  | nil => exact le_refl m
  | cons a t ih => exact le_trans (le_max_left m a) (ih (max m a))

theorem maxMagnitude_nonneg (data : List Nat) (width height : Nat) :
    0 ≤ maxMagnitude data width height :=
  le_foldl_max_init _ 0

theorem normalizedEdgeAt_eq_spec (data : List Nat) (width height : Nat) (i : Nat) :
    normalizedEdgeAt data width height i = specNormalizedAt data width height i := by
  unfold normalizedEdgeAt specNormalizedAt
  by_cases hm : maxMagnitude data width height = 0
  · rw [if_pos hm, if_neg (by rw [hm]; exact lt_irrefl 0), mul_zero, zero_mul]
  · rw [if_neg hm, if_pos (lt_of_le_of_ne (maxMagnitude_nonneg data width height)
      (Ne.symm hm))]
    ring

/-- C5: the thresholding stage of the source computes exactly the spec's
adaptive threshold — `clamp(mean + population-stddev, 35, 180)` over the
max-normalized gradient (all-zero when the maximum is 0) — and outputs 255
exactly where the normalized value reaches the threshold. -/
theorem binaryEdges_matches_spec (data : List Nat) (width height : Nat)
    (_hw : 0 < width) (_hh : 0 < height) :
    edgeThreshold data width height = specThreshold data width height ∧
    binaryEdges data width height = specBinaryEdges data width height := by
  have hnorm := normalizedEdgeAt_eq_spec data width height
  have hmean : edgeMean data width height = specMean data width height := by
    unfold edgeMean specMean
    rw [Finset.sum_congr rfl (fun i _ => hnorm i)]
  have hstd : edgeStdDev data width height = specStdDev data width height := by
    unfold edgeStdDev specStdDev
    rw [hmean, Finset.sum_congr rfl (fun i _ => by rw [hnorm i])]
  have hthr : edgeThreshold data width height = specThreshold data width height := by
    unfold edgeThreshold specThreshold
    rw [hmean, hstd]
  refine ⟨hthr, ?_⟩
  unfold binaryEdges specBinaryEdges
  refine List.map_congr_left ?_
  intro i _
  rw [hthr, hnorm i]

/-- Witness for C5 at a 1×1 black image. -/
theorem binaryEdges_matches_spec_witness :
    edgeThreshold [0, 0, 0, 255] 1 1 = specThreshold [0, 0, 0, 255] 1 1 ∧
    binaryEdges [0, 0, 0, 255] 1 1 = specBinaryEdges [0, 0, 0, 255] 1 1 :=
  binaryEdges_matches_spec [0, 0, 0, 255] 1 1 (by decide) (by decide)

/-! ## Mask fusion rounding (claim C4) -/

/-- Counterexample to C4 as stated: with `edge = 0`, `color = 1`, `gate = 128`
the fused value is `Math.round(128/255) = 1`, while integer truncation
`1 * 128 / 255 = 0` — the source rounds, it does not truncate. -/
theorem combineMasks_rounds_not_truncates :
    px (combineMasks [0] [1] [128] 1) 0 = 1 ∧ 1 * 128 / 255 = (0 : Nat) := by
  refine ⟨?_, by norm_num⟩
  unfold combineMasks px jsRoundQ
  rw [getD_map_range, if_pos (by norm_num)]
  simp only [List.getD_cons_zero]
  have hf : ⌊(((1 : Nat) : ℚ) * ((128 : Nat) : ℚ)) / 255 + 1 / 2⌋ = 1 := by
    rw [Int.floor_eq_iff]
    constructor <;> norm_num
  rw [hf]
  rfl

/-- C4 (amended): the gated colour contribution that enters the max with the
edge mask is `Math.round(color * gate / 255)` — the integer within 1/2 of the
exact ratio (rounding, half up), not its truncation. -/
theorem combineMasks_gated_rounding (edgeBlurred colorBlurred objectRegionSoft : List Nat)
    (pixelCount i : Nat) (hi : i < pixelCount) :
    px (combineMasks edgeBlurred colorBlurred objectRegionSoft pixelCount) i =
      max (px edgeBlurred i)
        (jsRoundQ (((px colorBlurred i : ℚ) * (px objectRegionSoft i : ℚ)) / 255)).toNat ∧
    |(((px colorBlurred i : ℚ) * (px objectRegionSoft i : ℚ)) / 255 -
      ((jsRoundQ (((px colorBlurred i : ℚ) * (px objectRegionSoft i : ℚ)) / 255) : ℤ) : ℚ))| ≤
      1 / 2 := by
  constructor
  · unfold combineMasks px
    rw [getD_map_range, if_pos hi]
  · set q : ℚ := ((px colorBlurred i : ℚ) * (px objectRegionSoft i : ℚ)) / 255 with hq
    unfold jsRoundQ
    rw [abs_le]
    have h1 : ((⌊q + 1 / 2⌋ : ℤ) : ℚ) ≤ q + 1 / 2 := Int.floor_le _
    have h2 : q + 1 / 2 < ((⌊q + 1 / 2⌋ : ℤ) : ℚ) + 1 := Int.lt_floor_add_one _
    constructor <;> [linarith; linarith]

/-- Witness for C4 (amended) at a concrete fusion input. -/
theorem combineMasks_gated_rounding_witness :
    px (combineMasks [7] [1] [128] 1) 0 =
      max (px [7] 0)
        (jsRoundQ (((px [1] 0 : ℚ) * (px [128] 0 : ℚ)) / 255)).toNat ∧
    |(((px [1] 0 : ℚ) * (px [128] 0 : ℚ)) / 255 -
      ((jsRoundQ (((px [1] 0 : ℚ) * (px [128] 0 : ℚ)) / 255) : ℤ) : ℚ))| ≤ 1 / 2 :=
  combineMasks_gated_rounding [7] [1] [128] 1 0 (by decide)

/-! ## Flood fill on the synthetic ring (claim C3) -/

/-- A 12×12 mask holding a single fully-closed 10×10 ring of 255 (outer edge
at columns/rows 1..10, thickness 3) that encloses a 4×4 zero block at
columns/rows 4..7; the outermost one-pixel frame is zero and connected to
the border. -/
def ringMask : List Nat :=
  (List.range 144).map fun i =>
    let x := i % 12
    let y := i / 12
    if 1 ≤ x ∧ x ≤ 10 ∧ 1 ≤ y ∧ y ≤ 10 ∧ ¬(4 ≤ x ∧ x ≤ 7 ∧ 4 ≤ y ∧ y ≤ 7)
    then 255 else 0

/-- What the interior fill actually produces on `ringMask`: 255 on the ring
AND its enclosed block (every unreached pixel), 0 only on the reached
exterior frame. -/
def ringFilled : List Nat :=
  (List.range 144).map fun i =>
    let x := i % 12
    let y := i / 12
    if 1 ≤ x ∧ x ≤ 10 ∧ 1 ≤ y ∧ y ≤ 10 then 255 else 0

set_option maxRecDepth 40000

/-- Counterexample to C3 as stated: pixel (1,1) (flat index 13) carries 255
in the input — it is part of the ring, not of the enclosed 4×4 zero block —
yet the interior-fill output is 255 there too, so the output's 255-set is
strictly larger than the enclosed block. -/
theorem fillClosedRegions_ring_not_only_interior :
    px ringMask 13 = 255 ∧ px (fillClosedRegions ringMask 12 12) 13 = 255 := by
  constructor <;> decide

/-- C3 (amended): on the synthetic ring input the interior fill returns 255
exactly on the ring together with its enclosed 4×4 block (all pixels the
border flood cannot reach), and 0 on the true exterior. -/
theorem fillClosedRegions_ring_output :
    fillClosedRegions ringMask 12 12 = ringFilled := by decide

set_option maxRecDepth 512

/-! ## Wall-colour estimation (claim C6) -/

/-- A 6×6 RGBA image whose sampled border band is uniform gray (128,128,128)
except for a single black outlier at (1,2), a position the border sampler
reads exactly once. -/
def grayOutlierImg : List Nat :=
  (List.range 36).flatMap fun i =>
    if i % 6 = 1 ∧ i / 6 = 2 then [0, 0, 0, 255] else [128, 128, 128, 255]

/-- A 6×6 RGBA image whose top three rows are black and bottom three rows
are white, making the border sampler collect exactly eight black and eight
white samples. -/
def blackWhiteImg : List Nat :=
  (List.range 36).flatMap fun i =>
    if i / 6 ≤ 2 then [0, 0, 0, 255] else [255, 255, 255, 255]

/-- Modelled from the spec: twice the statistical median of a list of sums
(twice, to stay in `Nat`: the median of an even-length list is the mean of
the two middle values of the sorted list). -/
def statMedian2 (sums : List Nat) : Nat :=
  let sorted := sums.insertionSort (· ≤ ·)
  if sums.length % 2 = 0 then
    sorted.getD (sums.length / 2 - 1) 0 + sorted.getD (sums.length / 2) 0
  else 2 * sorted.getD (sums.length / 2) 0

/-- Counterexample to C6 as stated: on `blackWhiteImg` the collected sample
sums are eight 0s and eight 765s, whose statistical median is 382.5, but the
returned sample is white with sum 765 — the returned sample's sum is not the
statistical median of the collected samples. -/
theorem estimateWallColor_not_statistical_median :
    estimateWallColor blackWhiteImg 6 6 = (255, 255, 255) ∧
    2 * sampleSum (estimateWallColor blackWhiteImg 6 6) ≠
      statMedian2 ((borderSamples blackWhiteImg 6 6).map sampleSum) := by
  constructor <;> decide

instance : IsTotal (Nat × Nat × Nat) sumLE := ⟨fun _ _ => Nat.le_total _ _⟩

instance : IsTrans (Nat × Nat × Nat) sumLE := ⟨fun _ _ _ => Nat.le_trans⟩

/-- C6 (amended): with zero samples the estimator returns neutral gray;
otherwise it returns one of the collected samples whose sum has median rank —
at least half of the samples have a sum less than or equal to it and at least
half have a sum greater than or equal to it (the upper median; the source
takes the sum-sorted sample at index `length >> 1`).  On the
gray-border-with-one-black-outlier image it returns exactly (128,128,128). -/
theorem estimateWallColor_median_rank :
    (∀ (data : List Nat) (width height : Nat),
      (borderSamples data width height = [] →
        estimateWallColor data width height = (128, 128, 128)) ∧
      (borderSamples data width height ≠ [] →
        estimateWallColor data width height ∈ borderSamples data width height ∧
        2 * (borderSamples data width height).countP
            (fun s => sampleSum s ≤ sampleSum (estimateWallColor data width height)) ≥
          (borderSamples data width height).length ∧
        2 * (borderSamples data width height).countP
            (fun s => sampleSum (estimateWallColor data width height) ≤ sampleSum s) ≥
          (borderSamples data width height).length)) ∧
    estimateWallColor grayOutlierImg 6 6 = (128, 128, 128) := by
  refine ⟨?_, by decide⟩
  intro data width height
  set l := borderSamples data width height with hl
  set sorted := l.insertionSort sumLE with hsorted_def
  have hr0 : estimateWallColor data width height =
      if l = [] then (128, 128, 128) else sorted.getD (l.length / 2) (128, 128, 128) := rfl
  constructor
  · intro hnil
    rw [hr0, if_pos hnil]
  · intro hne
    have hlen : sorted.length = l.length := List.length_insertionSort sumLE l
    have hlpos : 0 < l.length := List.length_pos_of_ne_nil hne
    set m := l.length / 2 with hm
    have hml : m < sorted.length := by omega
    have hr : estimateWallColor data width height = sorted[m] := by
      rw [hr0, if_neg hne]
      exact List.getD_eq_getElem _ _ hml
    have hperm : sorted.Perm l := List.perm_insertionSort sumLE l
    have hpw : List.Pairwise sumLE sorted := List.sorted_insertionSort sumLE l
    have hcons : sorted[m] :: sorted.drop (m + 1) = sorted.drop m :=
      List.getElem_cons_drop sorted m hml
    have hsplit : sorted.take m ++ sorted[m] :: sorted.drop (m + 1) = sorted := by
      rw [hcons]
      exact List.take_append_drop m sorted
    have hpw2 : List.Pairwise sumLE (sorted.take m ++ sorted[m] :: sorted.drop (m + 1)) := by
      rw [hsplit]
      exact hpw
    obtain ⟨hpwT, hpwR, hcross⟩ := List.pairwise_append.mp hpw2
    have hTle : ∀ x ∈ sorted.take m, sampleSum x ≤ sampleSum sorted[m] :=
      fun x hx => hcross x hx _ (List.mem_cons_self _ _)
    have hRge : ∀ y ∈ sorted.drop (m + 1), sampleSum sorted[m] ≤ sampleSum y :=
      (List.pairwise_cons.mp hpwR).1
    have hTlen : (sorted.take m).length = m := by
      rw [List.length_take]
      omega
    have hRlen : (sorted.drop (m + 1)).length = sorted.length - (m + 1) :=
      List.length_drop _ _
    have hcntle : l.countP (fun s => sampleSum s ≤ sampleSum sorted[m]) ≥ m + 1 := by
      have hc := congrArg
        (List.countP (fun s => decide (sampleSum s ≤ sampleSum sorted[m]))) hsplit
      rw [← hperm.countP_eq, ← hc, List.countP_append, List.countP_cons]
      have h1 : (sorted.take m).countP (fun s => sampleSum s ≤ sampleSum sorted[m]) = m := by
        rw [List.countP_eq_length.mpr (fun a ha => by simpa using hTle a ha)]
        exact hTlen
      have h2 : (decide (sampleSum sorted[m] ≤ sampleSum sorted[m]) : Bool) = true := by
        simp
      rw [h1]
      simp [h2]
    have hcntge : l.countP (fun s => sampleSum sorted[m] ≤ sampleSum s) ≥
        1 + (sorted.length - (m + 1)) := by
      have hc := congrArg
        (List.countP (fun s => decide (sampleSum sorted[m] ≤ sampleSum s))) hsplit
      rw [← hperm.countP_eq, ← hc, List.countP_append, List.countP_cons]
      have h1 : (sorted.drop (m + 1)).countP (fun s => sampleSum sorted[m] ≤ sampleSum s) =
          sorted.length - (m + 1) := by
        rw [List.countP_eq_length.mpr (fun a ha => by simpa using hRge a ha)]
        exact hRlen
      have h2 : (decide (sampleSum sorted[m] ≤ sampleSum sorted[m]) : Bool) = true := by
        simp
      rw [h1]
      simp [h2]
      omega
    refine ⟨?_, ?_, ?_⟩
    · rw [hr]
      exact hperm.mem_iff.mp (List.getElem_mem hml)
    · rw [hr]
      omega
    · rw [hr]
      omega

/-- Witness for C6 (amended) on the gray-with-outlier image. -/
theorem estimateWallColor_median_rank_witness :
    estimateWallColor grayOutlierImg 6 6 ∈ borderSamples grayOutlierImg 6 6 ∧
    2 * (borderSamples grayOutlierImg 6 6).countP
        (fun s => sampleSum s ≤ sampleSum (estimateWallColor grayOutlierImg 6 6)) ≥
      (borderSamples grayOutlierImg 6 6).length ∧
    2 * (borderSamples grayOutlierImg 6 6).countP
        (fun s => sampleSum (estimateWallColor grayOutlierImg 6 6) ≤ sampleSum s) ≥
      (borderSamples grayOutlierImg 6 6).length :=
  (estimateWallColor_median_rank.1 grayOutlierImg 6 6).2 (by decide)
